import Mathlib

/-!
Verification development for the GPXAssist track-analysis core.

The definitions below are shallow embeddings of the Rust source:

* `src/src/gpx.rs`: geodesy primitives (`haversine_distance`,
  `geodetic_to_ecef`, `ECEF_distance`, `calculate_bearing`), the track
  builder (`build_track_data`) and the nearest-distance search
  (`find_closest_point`).
* `src/src/ui/frame.rs` (`new_gradient_image`): the gradient window
  computation, window point selection (indexed slice with linear-scan
  fallback), per-segment slope (`calculate_gradient_percent`) and the
  slope classification (`gradient_color`).

Modelling conventions: `f64` values that only undergo ring operations,
comparisons, `min`/`max` and guarded division are modelled as exact
rationals (`ℚ`); the transcendental geodesy formulas are modelled over
the reals (`ℝ`), with `atan2`, `trunc` and the float remainder `%` given
their exact mathematical meaning on finite inputs.  The Rust slice
method `binary_search_by` is modelled by `bsAux`, the textual loop of
its standard-library implementation, with an explicit fuel argument
that is always supplied with at least `right - left` iterations (which
makes it equal to the unfueled loop, since every iteration shrinks
`right - left`).
-/

/-- Latitude/longitude pair in degrees (`Point` in src/src/gpx.rs),
generic over the scalar type used by the embedding. -/
structure Point (α : Type) where
  lat : α
  lon : α
deriving DecidableEq, Repr

/-- Enriched per-waypoint record (`TrackPoint` in src/src/gpx.rs):
cumulative distance, position, heading and altitude. -/
structure TrackPoint (α : Type) where
  distance : α
  point : Point α
  heading : α
  altitude : α
deriving DecidableEq, Repr

/-- Distance-formula choice (`DistanceMethod` in src/src/gpx.rs). -/
inductive DistanceMethod
  | Haversine
  | ECEF
deriving DecidableEq, Repr

/-- Fuelled rendering of the Rust standard-library `binary_search_by`
loop, as invoked in `find_closest_point` (src/src/gpx.rs): `left`/`right`
bracket the unsearched region, the probe at `mid` decides the next
bracket, and an `Equal` comparison returns `Ok mid` (`Sum.inl`).  When
the fuel is at least `right - left` the fuel never runs out before the
loop exits, so the function is exactly the loop. -/
def bsAux (ds : List ℚ) (t : ℚ) : Nat → Nat → Nat → Nat ⊕ Nat
  | 0, left, _ => Sum.inr left
  | fuel + 1, left, right =>
    if left < right then
      let mid := left + (right - left) / 2
      let d := ds.getD mid 0
      if d < t then bsAux ds t fuel (mid + 1) right
      else if t < d then bsAux ds t fuel left mid
      else Sum.inl mid
    else Sum.inr left

/-- Rust `ds.binary_search_by(...)` over a list of distances:
`Sum.inl i` is `Ok(i)` (exact match), `Sum.inr i` is `Err(i)` (the
insertion index). -/
def binary_search (ds : List ℚ) (t : ℚ) : Nat ⊕ Nat :=
  bsAux ds t ds.length 0 ds.length

/-- Default `TrackPoint` used to make list indexing total; every index
the embedded code produces is proved to be in bounds, so the default is
never the value actually read. -/
def default_tp : TrackPoint ℚ := ⟨0, ⟨0, 0⟩, 0, 0⟩

/-- Shallow embedding of `find_closest_point` (src/src/gpx.rs, lines
175-209): empty input returns `(None, -1)`; an exact binary-search match
returns that point and index; otherwise the insertion index is clamped
to the ends or resolved to the nearer bracketing neighbour, preferring
the earlier index on a tie. -/
def find_closest_point (track_data : List (TrackPoint ℚ)) (target_distance : ℚ) :
    Option (TrackPoint ℚ) × Int :=
  if track_data.isEmpty then (none, -1)
  else
    match binary_search (track_data.map TrackPoint.distance) target_distance with
    | Sum.inl index => (some (track_data.getD index default_tp), (index : Int))
    | Sum.inr index =>
      let chosen_index :=
        if index = 0 then 0
        else if track_data.length ≤ index then track_data.length - 1
        else
          let prev := track_data.getD (index - 1) default_tp
          let next := track_data.getD index default_tp
          if target_distance - prev.distance ≤ next.distance - target_distance then index - 1
          else index
      (some (track_data.getD chosen_index default_tp), (chosen_index : Int))

/-- Shallow embedding of the gradient-window computation in
`new_gradient_image` (src/src/ui/frame.rs, lines 545-550):
`gradient_start = (position.distance - gradient_offset).max(0.0)`,
`gradient_end = (gradient_start + gradient_length).min(total_distance)`,
and when `gradient_end == total_distance` the start is recomputed as
`(gradient_end - gradient_length).max(0.0)`. -/
def new_gradient_window (total_distance gradient_offset gradient_length position_distance : ℚ) :
    ℚ × ℚ :=
  let gradient_start := max (position_distance - gradient_offset) 0
  let gradient_end := min (gradient_start + gradient_length) total_distance
  if gradient_end = total_distance then
    (max (gradient_end - gradient_length) 0, gradient_end)
  else (gradient_start, gradient_end)

/-- Windowing rule as worded by the specification: `start = max(0,
position.distance - offset)`; `end = min(total_distance, start +
length)`; if `end` was clamped to `total_distance` (that is, the
unclamped value reached it), `start` is recomputed as `max(0, end -
length)`.  Stated separately from `new_gradient_window` so the two can
be compared. -/
def windowing_spec (total_distance offset length position_distance : ℚ) : ℚ × ℚ :=
  let s := max 0 (position_distance - offset)
  let e := min total_distance (s + length)
  if total_distance ≤ s + length then (max 0 (e - length), e) else (s, e)

/-- Linear-scan selection of window points, the fallback path of
`new_gradient_image` (src/src/ui/frame.rs, lines 568-576): keep every
track point whose distance lies in `[gradient_start, gradient_end]`. -/
def linear_scan_points (track : List (TrackPoint ℚ)) (gradient_start gradient_end : ℚ) :
    List (TrackPoint ℚ) :=
  track.filter fun p =>
    decide (gradient_start ≤ p.distance) && decide (p.distance ≤ gradient_end)

/-- Window point selection of `new_gradient_image` (src/src/ui/frame.rs,
lines 552-576): find the indices nearest `gradient_start` and
`gradient_end`; when `0 <= i` and `i <= j`, take the inclusive slice
`track[i..=j]`; otherwise fall back to the linear scan. -/
def select_gradient_points (track : List (TrackPoint ℚ)) (gradient_start gradient_end : ℚ) :
    List (TrackPoint ℚ) :=
  let i := (find_closest_point track gradient_start).2
  if 0 ≤ i then
    let j := (find_closest_point track gradient_end).2
    if i ≤ j then (track.drop i.toNat).take (j.toNat - i.toNat + 1)
    else linear_scan_points track gradient_start gradient_end
  else linear_scan_points track gradient_start gradient_end

/-- Shallow embedding of the `calculate_gradient_percent` closure in
`new_gradient_image` (src/src/ui/frame.rs, lines 617-623): horizontal
runs shorter than 0.1 m give slope 0, otherwise rise over run times
100. -/
def calculate_gradient_percent (p1 p2 : TrackPoint ℚ) : ℚ :=
  let horizontal_dist := p2.distance - p1.distance
  if horizontal_dist < 1 / 10 then 0
  else (p2.altitude - p1.altitude) / horizontal_dist * 100

/-- Severity band assigned by the classification in `gradient_color`
(src/src/ui/frame.rs, lines 626-666): the four bands are the four
top-level branches of that closure. -/
inductive Band
  | downhill
  | flat
  | uphill
  | extreme
deriving DecidableEq, Repr

/-- Color built by a `tiny_skia::Color::from_rgba8(c1, c2, c3, c4)`
call, recorded as its four arguments in order. -/
structure Color where
  c1 : Nat
  c2 : Nat
  c3 : Nat
  c4 : Nat
deriving DecidableEq, Repr

/-- Rust `as u8` applied to a finite non-negative-range float computed
exactly: truncation toward zero saturating to `[0, 255]`. -/
def rust_as_u8 (q : ℚ) : Nat :=
  if q ≤ 0 then 0 else if 255 ≤ q then 255 else q.floor.toNat

/-- Shallow embedding of the `gradient_color` closure in
`new_gradient_image` (src/src/ui/frame.rs, lines 626-666).
`extreme_start` is `extreme_gradient.abs() - 1.5`, computed in the
enclosing function and captured by the closure. -/
def gradient_color (flat_gradient extreme_gradient gradient_pct : ℚ) : Color :=
  let extreme_start := abs extreme_gradient - 3 / 2
  if gradient_pct < -(abs flat_gradient) then
    let t := min (abs ((-(abs flat_gradient) - gradient_pct) / abs extreme_gradient)) 1
    let b : Nat := 255
    let g := rust_as_u8 (216 * (1 - t))
    let r := rust_as_u8 (173 * (1 - t))
    ⟨b, g, r, 255⟩
  else if abs flat_gradient < gradient_pct then
    if abs extreme_gradient ≤ gradient_pct then ⟨0, 0, 0, 255⟩
    else
      let t := min ((gradient_pct - abs flat_gradient) / abs extreme_gradient) 1
      let b : Nat := if extreme_start < gradient_pct then 0 else 255
      let g := rust_as_u8 (255 * (1 - t))
      let r := rust_as_u8 (150 * (1 - t))
      ⟨r, g, b, 255⟩
  else
    let t := min (abs ((abs flat_gradient - gradient_pct) / abs extreme_gradient)) 1
    let b : Nat := 0
    let g := rust_as_u8 (255 * (1 - t))
    let r : Nat := 0
    ⟨b, g, r, 255⟩

/-- Band of the branch `gradient_color` takes: the same condition tree
with the color construction erased. -/
def gradient_band (flat_gradient extreme_gradient gradient_pct : ℚ) : Band :=
  if gradient_pct < -(abs flat_gradient) then Band.downhill
  else if abs flat_gradient < gradient_pct then
    if abs extreme_gradient ≤ gradient_pct then Band.extreme else Band.uphill
  else Band.flat

/-- Synthetic track with distances `[0, 100, 250, 400]`, used by the
search examples of the specification. -/
def example_track : List (TrackPoint ℚ) :=
  [⟨0, ⟨0, 0⟩, 0, 0⟩, ⟨100, ⟨0, 0⟩, 0, 0⟩, ⟨250, ⟨0, 0⟩, 0, 0⟩, ⟨400, ⟨0, 0⟩, 0, 0⟩]

/-- Two-point track with distances `[0, 100]`, used to compare the two
window point-selection paths. -/
def two_point_track : List (TrackPoint ℚ) :=
  [⟨0, ⟨0, 0⟩, 0, 0⟩, ⟨100, ⟨0, 0⟩, 0, 10⟩]

noncomputable section

/-- Degrees to radians, Rust `f64::to_radians`. -/
def toRadians (x : ℝ) : ℝ := x * (Real.pi / 180)

/-- Radians to degrees, Rust `f64::to_degrees`. -/
def toDegrees (x : ℝ) : ℝ := x * (180 / Real.pi)

/-- Two-argument arctangent: the mathematical function `f64::atan2`
computes on finite inputs, with `atan2 0 0 = 0`. -/
def atan2 (y x : ℝ) : ℝ :=
  if 0 < x then Real.arctan (y / x)
  else if x < 0 then
    if 0 ≤ y then Real.arctan (y / x) + Real.pi else Real.arctan (y / x) - Real.pi
  else if 0 < y then Real.pi / 2
  else if y < 0 then -(Real.pi / 2)
  else 0

/-- Mean Earth radius in meters (src/src/gpx.rs). -/
def EARTH_RADIUS_METERS : ℝ := 6371000

/-- WGS84 semi-major axis in meters (src/src/gpx.rs). -/
def WGS84_A : ℝ := 6378137

/-- WGS84 flattening (src/src/gpx.rs). -/
def WGS84_F : ℝ := 1 / 298.257223563

/-- WGS84 eccentricity squared (src/src/gpx.rs). -/
def WGS84_E_SQ : ℝ := WGS84_F * (2 - WGS84_F)

/-- Shallow embedding of `haversine_distance` (src/src/gpx.rs, lines
49-64). -/
def haversine_distance (p1 p2 : Point ℝ) : ℝ :=
  let lat1_rad := toRadians p1.lat
  let lon1_rad := toRadians p1.lon
  let lat2_rad := toRadians p2.lat
  let lon2_rad := toRadians p2.lon
  let d_lat := lat2_rad - lat1_rad
  let d_lon := lon2_rad - lon1_rad
  let a := Real.sin (d_lat / 2) ^ 2 +
    Real.cos lat1_rad * Real.cos lat2_rad * Real.sin (d_lon / 2) ^ 2
  let c := 2 * atan2 (Real.sqrt a) (Real.sqrt (1 - a))
  EARTH_RADIUS_METERS * c

/-- Earth-centered-Earth-fixed Cartesian coordinates (`ECEFCoord` in
src/src/gpx.rs). -/
structure ECEFCoord where
  x : ℝ
  y : ℝ
  z : ℝ

/-- Shallow embedding of `geodetic_to_ecef` (src/src/gpx.rs, lines
66-81), height assumed 0. -/
def geodetic_to_ecef (p : Point ℝ) : ECEFCoord :=
  let lat_rad := toRadians p.lat
  let lon_rad := toRadians p.lon
  let n := WGS84_A / Real.sqrt (1 - WGS84_E_SQ * Real.sin lat_rad ^ 2)
  { x := n * Real.cos lat_rad * Real.cos lon_rad
    y := n * Real.cos lat_rad * Real.sin lon_rad
    z := n * (1 - WGS84_E_SQ) * Real.sin lat_rad }

/-- Shallow embedding of `ECEF_distance` (src/src/gpx.rs, lines 84-92):
Euclidean distance between the two ECEF images. -/
def ECEF_distance (p1 p2 : Point ℝ) : ℝ :=
  let ecef1 := geodetic_to_ecef p1
  let ecef2 := geodetic_to_ecef p2
  Real.sqrt ((ecef2.x - ecef1.x) ^ 2 + (ecef2.y - ecef1.y) ^ 2 + (ecef2.z - ecef1.z) ^ 2)

/-- Rust `f64::trunc`: rounding toward zero. -/
def rustTrunc (z : ℝ) : ℝ := if 0 ≤ z then (⌊z⌋ : ℝ) else (⌈z⌉ : ℝ)

/-- Rust `%` on `f64`: remainder with the dividend's sign,
`a - b * trunc(a / b)`. -/
def rustRem (a b : ℝ) : ℝ := a - b * rustTrunc (a / b)

/-- Shallow embedding of `calculate_bearing` (src/src/gpx.rs, lines
211-230): spherical initial bearing, normalized into `[0, 360)` by
adding 360 and taking the float remainder. -/
def calculate_bearing (from_latitude from_longitude to_latitude to_longitude : ℝ) : ℝ :=
  let from_lat_rad := toRadians from_latitude
  let to_lat_rad := toRadians to_latitude
  let to_lon_rad := toRadians to_longitude
  let delta_lon := to_lon_rad - toRadians from_longitude
  let y := Real.sin delta_lon * Real.cos to_lat_rad
  let x := Real.cos from_lat_rad * Real.sin to_lat_rad -
    Real.sin from_lat_rad * Real.cos to_lat_rad * Real.cos delta_lon
  let bearing_rad := atan2 y x
  let bearing_deg := toDegrees bearing_rad
  rustRem (bearing_deg + 360) 360

/-- Raw waypoint handed to the track builder by the GPX parsing
collaborator: position in degrees and optional elevation. -/
structure Waypoint where
  lat : ℝ
  lon : ℝ
  elevation : Option ℝ

/-- The `match method` dispatch inside `build_track_data`
(src/src/gpx.rs, lines 117-121). -/
def segment_distance_of (method : DistanceMethod) (p1 p2 : Point ℝ) : ℝ :=
  match method with
  | DistanceMethod.Haversine => haversine_distance p1 p2
  | DistanceMethod.ECEF => ECEF_distance p1 p2

/-- Loop of `build_track_data` (src/src/gpx.rs, lines 105-133): running
cumulative distance and previous-point cursor; the first waypoint keeps
distance unchanged and heading 0, later waypoints add the segment
distance and take the bearing from the previous point. -/
def build_track_loop (method : DistanceMethod) (cumulative_distance : ℝ)
    (last_point : Option (Point ℝ)) : List Waypoint → List (TrackPoint ℝ)
  | [] => []
  | w :: rest =>
    let current_point : Point ℝ := ⟨w.lat, w.lon⟩
    let current_altitude := w.elevation.getD 0
    match last_point with
    | none =>
      ⟨cumulative_distance, current_point, 0, current_altitude⟩ ::
        build_track_loop method cumulative_distance (some current_point) rest
    | some prev_point =>
      let d := cumulative_distance + segment_distance_of method prev_point current_point
      let h := calculate_bearing prev_point.lat prev_point.lon current_point.lat current_point.lon
      ⟨d, current_point, h, current_altitude⟩ ::
        build_track_loop method d (some current_point) rest

/-- TrackPoint sequence built from a waypoint list: the loop of
`build_track_data` started with cumulative distance 0 and no previous
point. -/
def build_track_points (method : DistanceMethod) (ws : List Waypoint) : List (TrackPoint ℝ) :=
  build_track_loop method 0 none ws

/-- One `<trkseg>` of a parsed GPX file. -/
structure GpxSegment where
  points : List Waypoint

/-- One `<trk>` of a parsed GPX file. -/
structure GpxTrack where
  segments : List GpxSegment

/-- A parsed GPX file, as the `gpx` crate hands it to
`build_track_data`. -/
structure Gpx where
  tracks : List GpxTrack

/-- Shallow embedding of `build_track_data` (src/src/gpx.rs, lines
94-136) after file reading and parsing: take the first segment of the
first track (erroring when there is none) and run the builder loop over
its waypoints. -/
def build_track_data (method : DistanceMethod) (g : Gpx) :
    Except String (List (TrackPoint ℝ)) :=
  match g.tracks.head?.bind (fun track => track.segments.head?) with
  | none => Except.error ("GPX file does not contain a track segment.")
  | some track_segment => Except.ok (build_track_points method track_segment.points)

/-- GPX value whose first track's first segment exists but holds zero
waypoints (a `<trk><trkseg/></trk>` file). -/
def gpx_empty_first_segment : Gpx := ⟨[⟨[⟨[]⟩]⟩]⟩

/-- GPX value with no tracks at all. -/
def gpx_no_tracks : Gpx := ⟨[]⟩

/-- GPX value with one track containing one single-waypoint segment. -/
def gpx_one_waypoint : Gpx := ⟨[⟨[⟨[⟨0, 0, none⟩]⟩]⟩]⟩

end

/-- The chosen index of `find_closest_point` on a non-empty track, as a
function of the distance list: the same match and tie-break expression,
used to state and prove properties of the search. -/
def chosen_of (ds : List ℚ) (t : ℚ) : Nat :=
  match binary_search ds t with
  | Sum.inl index => index
  | Sum.inr index =>
    if index = 0 then 0
    else if ds.length ≤ index then ds.length - 1
    else if t - ds.getD (index - 1) 0 ≤ ds.getD index 0 - t then index - 1 else index

theorem getD_mono_of_pairwise {ds : List ℚ} (hs : ds.Pairwise (· ≤ ·)) {i j : Nat}
    (hij : i ≤ j) (hj : j < ds.length) : ds.getD i 0 ≤ ds.getD j 0 := by
  rcases Nat.eq_or_lt_of_le hij with h | h
  · exact h ▸ le_rfl
  · have hi : i < ds.length := lt_trans h hj
    rw [List.getD_eq_getElem?_getD, List.getD_eq_getElem?_getD,
      List.getElem?_eq_getElem hi, List.getElem?_eq_getElem hj]
    simpa using List.pairwise_iff_getElem.mp hs i j hi hj h

theorem getD_strict_mono_of_pairwise {ds : List ℚ} (hs : ds.Pairwise (· < ·)) {i j : Nat}
    (hij : i < j) (hj : j < ds.length) : ds.getD i 0 < ds.getD j 0 := by
  have hi : i < ds.length := lt_trans hij hj
  rw [List.getD_eq_getElem?_getD, List.getD_eq_getElem?_getD,
    List.getElem?_eq_getElem hi, List.getElem?_eq_getElem hj]
  simpa using List.pairwise_iff_getElem.mp hs i j hi hj hij

theorem bsAux_spec {ds : List ℚ} {t : ℚ} (hs : ds.Pairwise (· ≤ ·)) :
    ∀ fuel left right, left ≤ right → right ≤ ds.length → right - left ≤ fuel →
    (∀ k, k < left → ds.getD k 0 < t) →
    (∀ k, right ≤ k → k < ds.length → t < ds.getD k 0) →
    (∀ m, bsAux ds t fuel left right = Sum.inl m → m < ds.length ∧ ds.getD m 0 = t) ∧
    (∀ p, bsAux ds t fuel left right = Sum.inr p →
      p ≤ ds.length ∧ (∀ k, k < p → ds.getD k 0 < t) ∧
      (∀ k, p ≤ k → k < ds.length → t < ds.getD k 0)) := by
  intro fuel
  induction fuel with
  | zero =>
    intro left right h1 h2 h3 hlo hhi
    refine ⟨fun m hm => absurd hm (by simp [bsAux]), fun p hp => ?_⟩
    have hpl : left = p := by simpa [bsAux] using hp
    subst hpl
    exact ⟨le_trans h1 h2, hlo, fun k hk1 hk2 => hhi k (by omega) hk2⟩
  | succ fuel ih =>
    intro left right h1 h2 h3 hlo hhi
    by_cases hlr : left < right
    · have hmge : left ≤ left + (right - left) / 2 := Nat.le_add_right left _
      have hmlt : left + (right - left) / 2 < right := by
        have hhalf : (right - left) / 2 < right - left :=
          Nat.div_lt_self (Nat.sub_pos_of_lt hlr) one_lt_two
        omega
      have hmlen : left + (right - left) / 2 < ds.length := lt_of_lt_of_le hmlt h2
      have heq : bsAux ds t (fuel + 1) left right =
          (if ds.getD (left + (right - left) / 2) 0 < t then
            bsAux ds t fuel (left + (right - left) / 2 + 1) right
          else if t < ds.getD (left + (right - left) / 2) 0 then
            bsAux ds t fuel left (left + (right - left) / 2)
          else Sum.inl (left + (right - left) / 2)) := by
        simp only [bsAux]
        rw [if_pos hlr]
      by_cases hd1 : ds.getD (left + (right - left) / 2) 0 < t
      · rw [heq, if_pos hd1]
        refine ih (left + (right - left) / 2 + 1) right (by omega) h2 (by omega) ?_ hhi
        intro k hk
        exact lt_of_le_of_lt (getD_mono_of_pairwise hs (by omega) hmlen) hd1
      · by_cases hd2 : t < ds.getD (left + (right - left) / 2) 0
        · rw [heq, if_neg hd1, if_pos hd2]
          refine ih left (left + (right - left) / 2) hmge (le_of_lt hmlen) (by omega) hlo ?_
          intro k hk1 hk2
          exact lt_of_lt_of_le hd2 (getD_mono_of_pairwise hs hk1 hk2)
        · rw [heq, if_neg hd1, if_neg hd2]
          refine ⟨fun m hm => ?_, fun p hp => absurd hp (by simp)⟩
          have hmm : left + (right - left) / 2 = m := by simpa using hm
          subst hmm
          exact ⟨hmlen, le_antisymm (not_lt.mp hd2) (not_lt.mp hd1)⟩
    · have hleq : left = right := by omega
      have heq : bsAux ds t (fuel + 1) left right = Sum.inr left := by
        simp only [bsAux]
        rw [if_neg hlr]
      rw [heq]
      refine ⟨fun m hm => absurd hm (by simp), fun p hp => ?_⟩
      have hpl : left = p := by simpa using hp
      subst hpl
      exact ⟨le_trans h1 h2, hlo, fun k hk1 hk2 => hhi k (by omega) hk2⟩

theorem binary_search_inl {ds : List ℚ} {t : ℚ} (hs : ds.Pairwise (· ≤ ·)) {m : Nat}
    (h : binary_search ds t = Sum.inl m) : m < ds.length ∧ ds.getD m 0 = t :=
  (bsAux_spec hs ds.length 0 ds.length (Nat.zero_le _) le_rfl (by omega)
    (fun k hk => absurd hk (Nat.not_lt_zero k))
    (fun k hk1 hk2 => absurd (lt_of_le_of_lt hk1 hk2) (lt_irrefl _))).1 m h

theorem binary_search_inr {ds : List ℚ} {t : ℚ} (hs : ds.Pairwise (· ≤ ·)) {p : Nat}
    (h : binary_search ds t = Sum.inr p) :
    p ≤ ds.length ∧ (∀ k, k < p → ds.getD k 0 < t) ∧
    (∀ k, p ≤ k → k < ds.length → t < ds.getD k 0) :=
  (bsAux_spec hs ds.length 0 ds.length (Nat.zero_le _) le_rfl (by omega)
    (fun k hk => absurd hk (Nat.not_lt_zero k))
    (fun k hk1 hk2 => absurd (lt_of_le_of_lt hk1 hk2) (lt_irrefl _))).2 p h

theorem getD_map_distance (td : List (TrackPoint ℚ)) {i : Nat} (hi : i < td.length) :
    (td.map TrackPoint.distance).getD i 0 = (td.getD i default_tp).distance := by
  rw [List.getD_eq_getElem?_getD, List.getD_eq_getElem?_getD, List.getElem?_map,
    List.getElem?_eq_getElem hi]
  simp

theorem find_closest_point_eq {td : List (TrackPoint ℚ)} {t : ℚ} (hne : td ≠ []) :
    find_closest_point td t =
      (some (td.getD (chosen_of (td.map TrackPoint.distance) t) default_tp),
       (chosen_of (td.map TrackPoint.distance) t : Int)) := by
  have hlen : 0 < td.length := List.length_pos.mpr hne
  rw [find_closest_point, if_neg (by simpa [List.isEmpty_iff] using hne)]
  rw [chosen_of]
  cases h : binary_search (td.map TrackPoint.distance) t with
  | inl m => simp
  | inr p =>
    by_cases h0 : p = 0
    · simp [h0]
    · by_cases hl : td.length ≤ p
      · simp [h0, hl, List.length_map]
      · have hp : p < td.length := not_le.mp hl
        have hp1 : p - 1 < td.length := by omega
        simp [h0, hl, List.length_map, List.getElem?_eq_getElem hp,
          List.getElem?_eq_getElem hp1]

theorem chosen_of_lt {ds : List ℚ} {t : ℚ} (hs : ds.Pairwise (· ≤ ·)) (hne : ds ≠ []) :
    chosen_of ds t < ds.length := by
  have hlen : 0 < ds.length := List.length_pos.mpr hne
  rw [chosen_of]
  cases h : binary_search ds t with
  | inl m => exact (binary_search_inl hs h).1
  | inr p =>
    have hp := (binary_search_inr hs h).1
    by_cases h0 : p = 0
    · simpa [h0] using hlen
    · by_cases hl : ds.length ≤ p
      · simp only [h0, hl, if_false, if_true]
        omega
      · simp only [h0, hl, if_false]
        split_ifs <;> omega

theorem chosen_of_exact {ds : List ℚ} {t : ℚ} (hs : ds.Pairwise (· ≤ ·)) {m : Nat}
    (hm : m < ds.length) (hdm : ds.getD m 0 = t) : ds.getD (chosen_of ds t) 0 = t := by
  rw [chosen_of]
  cases h : binary_search ds t with
  | inl i => exact (binary_search_inl hs h).2
  | inr p =>
    exfalso
    obtain ⟨hp, hlo, hhi⟩ := binary_search_inr hs h
    rcases lt_or_ge m p with hc | hc
    · exact absurd hdm (ne_of_lt (hlo m hc))
    · exact absurd hdm (ne_of_gt (hhi m hc hm))

theorem chosen_of_le {ds : List ℚ} {t : ℚ} (hs : ds.Pairwise (· < ·)) {k : Nat}
    (hk : k < ds.length) (ht : t ≤ ds.getD k 0) : chosen_of ds t ≤ k := by
  have hs' : ds.Pairwise (· ≤ ·) := hs.imp le_of_lt
  rw [chosen_of]
  cases h : binary_search ds t with
  | inl m =>
    obtain ⟨hm, hdm⟩ := binary_search_inl hs' h
    by_contra hmk
    push_neg at hmk
    have : ds.getD k 0 < ds.getD m 0 := getD_strict_mono_of_pairwise hs hmk hm
    rw [hdm] at this
    exact absurd ht (not_le.mpr this)
  | inr p =>
    obtain ⟨hp, hlo, hhi⟩ := binary_search_inr hs' h
    have hpk : p ≤ k := by
      by_contra hc
      push_neg at hc
      exact absurd ht (not_le.mpr (hlo k hc))
    by_cases h0 : p = 0
    · simp only [h0, if_true]
      omega
    · by_cases hl : ds.length ≤ p
      · omega
      · simp only [h0, hl, if_false]
        split_ifs <;> omega

theorem chosen_of_ge {ds : List ℚ} {t : ℚ} (hs : ds.Pairwise (· < ·)) {k : Nat}
    (hk : k < ds.length) (ht : ds.getD k 0 ≤ t) : k ≤ chosen_of ds t := by
  have hs' : ds.Pairwise (· ≤ ·) := hs.imp le_of_lt
  rw [chosen_of]
  cases h : binary_search ds t with
  | inl m =>
    obtain ⟨hm, hdm⟩ := binary_search_inl hs' h
    by_contra hmk
    push_neg at hmk
    have : ds.getD m 0 < ds.getD k 0 := getD_strict_mono_of_pairwise hs hmk hk
    rw [hdm] at this
    exact absurd ht (not_le.mpr this)
  | inr p =>
    obtain ⟨hp, hlo, hhi⟩ := binary_search_inr hs' h
    have hpk : k < p := by
      by_contra hc
      push_neg at hc
      exact absurd ht (not_le.mpr (hhi k hc hk))
    by_cases h0 : p = 0
    · omega
    · by_cases hl : ds.length ≤ p
      · simp only [h0, hl, if_false, if_true]
        omega
      · simp only [h0, hl, if_false]
        split_ifs <;> omega

theorem chosen_of_below_first {ds : List ℚ} {t : ℚ} (hs : ds.Pairwise (· ≤ ·))
    (hne : ds ≠ []) (ht : t < ds.getD 0 0) : chosen_of ds t = 0 := by
  have hlen : 0 < ds.length := List.length_pos.mpr hne
  have hall : ∀ k, k < ds.length → t < ds.getD k 0 := fun k hk =>
    lt_of_lt_of_le ht (getD_mono_of_pairwise hs (Nat.zero_le k) hk)
  rw [chosen_of]
  cases h : binary_search ds t with
  | inl m =>
    obtain ⟨hm, hdm⟩ := binary_search_inl hs h
    exact absurd hdm (ne_of_gt (hall m hm))
  | inr p =>
    obtain ⟨hp, hlo, hhi⟩ := binary_search_inr hs h
    have h0 : p = 0 := by
      by_contra hc
      exact absurd (hlo 0 (by omega)) (not_lt.mpr (le_of_lt (hall 0 hlen)))
    simp [h0]

theorem chosen_of_beyond_last {ds : List ℚ} {t : ℚ} (hs : ds.Pairwise (· ≤ ·))
    (hne : ds ≠ []) (ht : ds.getD (ds.length - 1) 0 < t) :
    chosen_of ds t = ds.length - 1 := by
  have hlen : 0 < ds.length := List.length_pos.mpr hne
  have hall : ∀ k, k < ds.length → ds.getD k 0 < t := fun k hk =>
    lt_of_le_of_lt (getD_mono_of_pairwise hs (by omega) (by omega)) ht
  rw [chosen_of]
  cases h : binary_search ds t with
  | inl m =>
    obtain ⟨hm, hdm⟩ := binary_search_inl hs h
    exact absurd hdm (ne_of_lt (hall m hm))
  | inr p =>
    obtain ⟨hp, hlo, hhi⟩ := binary_search_inr hs h
    have hpl : ds.length ≤ p := by
      by_contra hc
      push_neg at hc
      exact absurd (hhi p le_rfl hc) (not_lt.mpr (le_of_lt (hall p hc)))
    have h0 : p ≠ 0 := by omega
    simp [h0, hpl]

theorem chosen_of_bracket {ds : List ℚ} {t : ℚ} (hs : ds.Pairwise (· ≤ ·)) {k : Nat}
    (hk0 : 0 < k) (hk : k < ds.length) (h1 : ds.getD (k - 1) 0 < t)
    (h2 : t < ds.getD k 0) :
    chosen_of ds t =
      if t - ds.getD (k - 1) 0 ≤ ds.getD k 0 - t then k - 1 else k := by
  rw [chosen_of]
  cases h : binary_search ds t with
  | inl m =>
    exfalso
    obtain ⟨hm, hdm⟩ := binary_search_inl hs h
    rcases lt_or_ge m k with hc | hc
    · have : ds.getD m 0 ≤ ds.getD (k - 1) 0 :=
        getD_mono_of_pairwise hs (by omega) (by omega)
      rw [hdm] at this
      exact absurd h1 (not_lt.mpr this)
    · have : ds.getD k 0 ≤ ds.getD m 0 := getD_mono_of_pairwise hs hc hm
      rw [hdm] at this
      exact absurd h2 (not_lt.mpr this)
  | inr p =>
    obtain ⟨hp, hlo, hhi⟩ := binary_search_inr hs h
    have hpk : p = k := by
      rcases lt_or_ge (p : Nat) k with hc | hc
      · exact absurd (hhi (k - 1) (by omega) (by omega)) (not_lt.mpr (le_of_lt h1))
      · rcases Nat.eq_or_lt_of_le hc with hc2 | hc2
        · omega
        · exact absurd (hlo k hc2) (not_lt.mpr (le_of_lt h2))
    subst hpk
    have h0 : p ≠ 0 := by omega
    have hl : ¬ds.length ≤ p := by omega
    simp [h0, hl]

theorem mem_take_drop {l : List (TrackPoint ℚ)} {a b k : Nat} (hk : k < l.length)
    (hak : a ≤ k) (hkb : k ≤ b) : l[k] ∈ (l.drop a).take (b - a + 1) := by
  have hlen : k - a < ((l.drop a).take (b - a + 1)).length := by
    simp only [List.length_take, List.length_drop]
    omega
  have hval : ((l.drop a).take (b - a + 1))[k - a] = l[k] := by
    rw [List.getElem_take, List.getElem_drop]
    congr 1
    omega
  exact hval ▸ List.getElem_mem hlen

theorem select_gradient_points_superset (track : List (TrackPoint ℚ))
    (gradient_start gradient_end : ℚ)
    (hs : (track.map TrackPoint.distance).Pairwise (· < ·)) :
    ∀ p ∈ track, gradient_start ≤ p.distance → p.distance ≤ gradient_end →
      p ∈ select_gradient_points track gradient_start gradient_end := by
  intro p hp hps hpe
  obtain ⟨k, hk, rfl⟩ := List.getElem_of_mem hp
  have hne : track ≠ [] := List.ne_nil_of_length_pos (by omega)
  have hmem_lin : track[k] ∈ linear_scan_points track gradient_start gradient_end :=
    List.mem_filter.mpr ⟨hp, by simp [hps, hpe]⟩
  rw [select_gradient_points]
  by_cases hi : (0 : Int) ≤ (find_closest_point track gradient_start).2
  · rw [if_pos hi]
    by_cases hij : (find_closest_point track gradient_start).2 ≤
        (find_closest_point track gradient_end).2
    · rw [if_pos hij]
      have hkd : (track.map TrackPoint.distance).getD k 0 = track[k].distance := by
        rw [List.getD_eq_getElem?_getD, List.getElem?_map, List.getElem?_eq_getElem hk]
        simp
      have hkm : k < (track.map TrackPoint.distance).length := by
        simpa [List.length_map] using hk
      have hle : chosen_of (track.map TrackPoint.distance) gradient_start ≤ k :=
        chosen_of_le hs hkm (by rw [hkd]; exact hps)
      have hge : k ≤ chosen_of (track.map TrackPoint.distance) gradient_end :=
        chosen_of_ge hs hkm (by rw [hkd]; exact hpe)
      rw [find_closest_point_eq hne, find_closest_point_eq hne]
      simp only [Int.toNat_natCast]
      exact mem_take_drop hk hle hge
    · rw [if_neg hij]
      exact hmem_lin
  · rw [if_neg hi]
    exact hmem_lin

theorem arctan_nonneg_of {z : ℝ} (hz : 0 ≤ z) : 0 ≤ Real.arctan z := by
  have := Real.arctan_strictMono.monotone hz
  simpa [Real.arctan_zero] using this

theorem arctan_nonpos_of {z : ℝ} (hz : z ≤ 0) : Real.arctan z ≤ 0 := by
  have := Real.arctan_strictMono.monotone hz
  simpa [Real.arctan_zero] using this

theorem arctan_pos_of {z : ℝ} (hz : 0 < z) : 0 < Real.arctan z := by
  have := Real.arctan_strictMono hz
  simpa [Real.arctan_zero] using this

theorem atan2_nonneg {y x : ℝ} (hy : 0 ≤ y) (hx : 0 ≤ x) : 0 ≤ atan2 y x := by
  rw [atan2]
  split_ifs with h1 h2 h3 h4
  · exact arctan_nonneg_of (div_nonneg hy (le_of_lt h1))
  · exact absurd h2 (not_lt.mpr hx)
  · positivity
  · exact absurd h4 (not_lt.mpr hy)
  · exact le_rfl

theorem atan2_zero_one : atan2 0 1 = 0 := by
  rw [atan2, if_pos one_pos]
  simp [Real.arctan_zero]

theorem atan2_zero_zero : atan2 0 0 = 0 := by
  rw [atan2]
  norm_num

theorem atan2_le_pi (y x : ℝ) : atan2 y x ≤ Real.pi := by
  have hpi := Real.pi_pos
  rw [atan2]
  split_ifs with h1 h2 h3 h4 h5
  · have := Real.arctan_lt_pi_div_two (y / x)
    linarith
  · have harc : Real.arctan (y / x) ≤ 0 :=
      arctan_nonpos_of (div_nonpos_iff.mpr (Or.inl ⟨h3, le_of_lt h2⟩))
    linarith
  · have := Real.arctan_lt_pi_div_two (y / x)
    linarith
  · linarith
  · linarith
  · linarith

theorem neg_pi_lt_atan2 (y x : ℝ) : -Real.pi < atan2 y x := by
  have hpi := Real.pi_pos
  rw [atan2]
  split_ifs with h1 h2 h3 h4 h5
  · have := Real.neg_pi_div_two_lt_arctan (y / x)
    linarith
  · have := Real.neg_pi_div_two_lt_arctan (y / x)
    linarith
  · push_neg at h3
    have harc : 0 < Real.arctan (y / x) :=
      arctan_pos_of (div_pos_iff.mpr (Or.inr ⟨h3, h2⟩))
    linarith
  · linarith
  · linarith
  · linarith

theorem haversine_distance_nonneg (p1 p2 : Point ℝ) : 0 ≤ haversine_distance p1 p2 := by
  rw [haversine_distance]
  have h1 : (0 : ℝ) ≤ EARTH_RADIUS_METERS := by norm_num [EARTH_RADIUS_METERS]
  have h2 : 0 ≤ atan2 (Real.sqrt (Real.sin ((toRadians p2.lat - toRadians p1.lat) / 2) ^ 2 +
      Real.cos (toRadians p1.lat) * Real.cos (toRadians p2.lat) *
        Real.sin ((toRadians p2.lon - toRadians p1.lon) / 2) ^ 2))
      (Real.sqrt (1 - (Real.sin ((toRadians p2.lat - toRadians p1.lat) / 2) ^ 2 +
        Real.cos (toRadians p1.lat) * Real.cos (toRadians p2.lat) *
          Real.sin ((toRadians p2.lon - toRadians p1.lon) / 2) ^ 2))) :=
    atan2_nonneg (Real.sqrt_nonneg _) (Real.sqrt_nonneg _)
  exact mul_nonneg h1 (by linarith)

theorem haversine_distance_self (p : Point ℝ) : haversine_distance p p = 0 := by
  rw [haversine_distance]
  simp [sub_self, Real.sin_zero, Real.sqrt_zero, Real.sqrt_one, atan2_zero_one]

theorem ECEF_distance_nonneg (p1 p2 : Point ℝ) : 0 ≤ ECEF_distance p1 p2 :=
  Real.sqrt_nonneg _

theorem ECEF_distance_self (p : Point ℝ) : ECEF_distance p p = 0 := by
  rw [ECEF_distance]
  simp [sub_self, Real.sqrt_zero]

theorem segment_distance_of_nonneg (method : DistanceMethod) (p1 p2 : Point ℝ) :
    0 ≤ segment_distance_of method p1 p2 := by
  cases method with
  | Haversine => exact haversine_distance_nonneg p1 p2
  | ECEF => exact ECEF_distance_nonneg p1 p2

theorem rustRem_bounds {a b : ℝ} (ha : 0 ≤ a) (hb : 0 < b) :
    0 ≤ rustRem a b ∧ rustRem a b < b := by
  rw [rustRem, rustTrunc, if_pos (div_nonneg ha (le_of_lt hb))]
  have h3 : b * (a / b) = a := by field_simp
  constructor
  · have h1 : (⌊a / b⌋ : ℝ) ≤ a / b := Int.floor_le _
    have h2 : b * (⌊a / b⌋ : ℝ) ≤ b * (a / b) :=
      mul_le_mul_of_nonneg_left h1 (le_of_lt hb)
    linarith
  · have h1 : a / b < (⌊a / b⌋ : ℝ) + 1 := Int.lt_floor_add_one _
    have h2 : b * (a / b) < b * ((⌊a / b⌋ : ℝ) + 1) := mul_lt_mul_of_pos_left h1 hb
    have h4 : b * ((⌊a / b⌋ : ℝ) + 1) = b * (⌊a / b⌋ : ℝ) + b := by ring
    linarith

theorem bearing_norm_bounds (y x : ℝ) :
    0 ≤ rustRem (toDegrees (atan2 y x) + 360) 360 ∧
    rustRem (toDegrees (atan2 y x) + 360) 360 < 360 := by
  have h1 : atan2 y x ≤ Real.pi := atan2_le_pi y x
  have h2 : -Real.pi < atan2 y x := neg_pi_lt_atan2 y x
  have hpi := Real.pi_pos
  have hratio : (0 : ℝ) < 180 / Real.pi := by positivity
  have hud : toDegrees (atan2 y x) ≤ 180 := by
    rw [toDegrees]
    have hm := mul_le_mul_of_nonneg_right h1 (le_of_lt hratio)
    have heq : Real.pi * (180 / Real.pi) = 180 := by field_simp
    linarith
  have hld : -180 < toDegrees (atan2 y x) := by
    rw [toDegrees]
    have hm := mul_lt_mul_of_pos_right h2 hratio
    have heq : -Real.pi * (180 / Real.pi) = -180 := by
      field_simp
      ring
    linarith
  exact rustRem_bounds (by linarith) (by norm_num)

theorem calculate_bearing_range (from_latitude from_longitude to_latitude to_longitude : ℝ) :
    0 ≤ calculate_bearing from_latitude from_longitude to_latitude to_longitude ∧
    calculate_bearing from_latitude from_longitude to_latitude to_longitude < 360 :=
  bearing_norm_bounds _ _

theorem calculate_bearing_self (lat lon : ℝ) : calculate_bearing lat lon lat lon = 0 := by
  have hx : Real.cos (toRadians lat) * Real.sin (toRadians lat) -
      Real.sin (toRadians lat) * Real.cos (toRadians lat) * Real.cos 0 = 0 := by
    rw [Real.cos_zero]
    ring
  simp only [calculate_bearing, sub_self, Real.sin_zero, zero_mul, hx, atan2_zero_zero]
  rw [toDegrees, zero_mul]
  rw [rustRem, rustTrunc]
  norm_num

theorem build_track_loop_facts (method : DistanceMethod) :
    ∀ (ws : List Waypoint) (cum : ℝ) (last : Option (Point ℝ)),
      List.Chain' (· ≤ ·) ((build_track_loop method cum last ws).map TrackPoint.distance) ∧
      ∀ x ∈ (build_track_loop method cum last ws).map TrackPoint.distance, cum ≤ x := by
  intro ws
  induction ws with
  | nil => intro cum last; simp [build_track_loop]
  | cons w rest ih =>
    intro cum last
    cases last with
    | none =>
      obtain ⟨ihc, ihb⟩ := ih cum (some ⟨w.lat, w.lon⟩)
      constructor
      · simp only [build_track_loop, List.map_cons]
        exact List.chain'_cons'.mpr
          ⟨fun y hy => ihb y (List.mem_of_mem_head? hy), ihc⟩
      · simp only [build_track_loop, List.map_cons, List.mem_cons]
        rintro x (rfl | hx)
        · exact le_rfl
        · exact ihb x hx
    | some prev =>
      have hseg : 0 ≤ segment_distance_of method prev ⟨w.lat, w.lon⟩ :=
        segment_distance_of_nonneg method prev ⟨w.lat, w.lon⟩
      obtain ⟨ihc, ihb⟩ :=
        ih (cum + segment_distance_of method prev ⟨w.lat, w.lon⟩) (some ⟨w.lat, w.lon⟩)
      constructor
      · simp only [build_track_loop, List.map_cons]
        exact List.chain'_cons'.mpr
          ⟨fun y hy => ihb y (List.mem_of_mem_head? hy), ihc⟩
      · simp only [build_track_loop, List.map_cons, List.mem_cons]
        rintro x (rfl | hx)
        · linarith
        · have := ihb x hx
          linarith

theorem build_track_points_monotone (method : DistanceMethod) (ws : List Waypoint) :
    List.Chain' (· ≤ ·) ((build_track_points method ws).map TrackPoint.distance) :=
  (build_track_loop_facts method ws 0 none).1

theorem build_track_points_head (method : DistanceMethod) (w : Waypoint) (rest : List Waypoint) :
    (build_track_points method (w :: rest)).head?.map TrackPoint.distance = some 0 := by
  simp [build_track_points, build_track_loop]

theorem build_track_loop_length (method : DistanceMethod) :
    ∀ (ws : List Waypoint) (cum : ℝ) (last : Option (Point ℝ)),
      (build_track_loop method cum last ws).length = ws.length := by
  intro ws
  induction ws with
  | nil => intro cum last; simp [build_track_loop]
  | cons w rest ih =>
    intro cum last
    cases last with
    | none => simp [build_track_loop, ih]
    | some prev => simp [build_track_loop, ih]

theorem build_track_loop_map_point (method : DistanceMethod) :
    ∀ (ws : List Waypoint) (cum : ℝ) (last : Option (Point ℝ)),
      (build_track_loop method cum last ws).map TrackPoint.point =
        ws.map (fun w => (⟨w.lat, w.lon⟩ : Point ℝ)) := by
  intro ws
  induction ws with
  | nil => intro cum last; simp [build_track_loop]
  | cons w rest ih =>
    intro cum last
    cases last with
    | none => simp [build_track_loop, ih]
    | some prev => simp [build_track_loop, ih]

theorem build_track_data_error_iff (method : DistanceMethod) (g : Gpx) :
    build_track_data method g = Except.error ("GPX file does not contain a track segment.") ↔
      g.tracks.head?.bind (fun track => track.segments.head?) = none := by
  rw [build_track_data]
  cases h : g.tracks.head?.bind (fun track => track.segments.head?) with
  | none => simp
  | some seg => simp

/-- C1: the gradient window of `new_gradient_image` is computed exactly
as the specification's windowing rule: `start = max(0,
position.distance - offset)`, `end = min(total_distance, start +
length)`, and when `end` is clamped to `total_distance` the start is
recomputed as `max(0, end - length)`; in particular, for total length
5000, offset 500, length 3000 and position distance 4800 the window is
`[2000, 5000]`, exactly 3000 m wide and not shrunk. -/
theorem C1_gradient_window :
    (∀ total_distance gradient_offset gradient_length position_distance : ℚ,
      new_gradient_window total_distance gradient_offset gradient_length position_distance =
        windowing_spec total_distance gradient_offset gradient_length position_distance) ∧
    new_gradient_window 5000 500 3000 4800 = (2000, 5000) ∧
    (new_gradient_window 5000 500 3000 4800).2 -
      (new_gradient_window 5000 500 3000 4800).1 = 3000 := by
  refine ⟨?_, ?_, ?_⟩
  · intro T o L p
    simp only [new_gradient_window, windowing_spec]
    rw [max_comm (p - o) 0]
    rcases lt_or_le (max 0 (p - o) + L) T with h | h
    · rw [min_eq_left (le_of_lt h), min_eq_right (le_of_lt h),
        if_neg (ne_of_lt h), if_neg (not_le.mpr h)]
    · rw [min_eq_right h, min_eq_left h, if_pos rfl, if_pos h, max_comm (T - L) 0]
  · have h1 : max ((4800 : ℚ) - 500) 0 = 4300 := by norm_num
    have h2 : min ((4300 : ℚ) + 3000) 5000 = 5000 := by norm_num
    have h3 : max ((5000 : ℚ) - 3000) 0 = 2000 := by norm_num
    simp only [new_gradient_window, h1, h2, h3, if_pos]
  · have h1 : max ((4800 : ℚ) - 500) 0 = 4300 := by norm_num
    have h2 : min ((4300 : ℚ) + 3000) 5000 = 5000 := by norm_num
    have h3 : max ((5000 : ℚ) - 3000) 0 = 2000 := by norm_num
    simp only [new_gradient_window, h1, h2, h3, if_pos]
    norm_num

/-- C2: for positive thresholds, the classification of `gradient_color`
assigns `s < -flat_pct` to the downhill band, `s > flat_pct` with
`s >= extreme_pct` to the extreme band, `s > flat_pct` with
`s < extreme_pct` to the non-extreme uphill band, and `|s| <= flat_pct`
to the flat band; with flat 0.5 and extreme 16, slope 0.3 is flat, 5 is
uphill non-extreme, 20 is uphill-extreme (black), and -10 is
downhill. -/
theorem C2_slope_classification :
    (∀ flat_pct extreme_pct s : ℚ, 0 < flat_pct → 0 < extreme_pct →
      (s < -flat_pct → gradient_band flat_pct extreme_pct s = Band.downhill) ∧
      (flat_pct < s → extreme_pct ≤ s → gradient_band flat_pct extreme_pct s = Band.extreme) ∧
      (flat_pct < s → s < extreme_pct → gradient_band flat_pct extreme_pct s = Band.uphill) ∧
      (abs s ≤ flat_pct → gradient_band flat_pct extreme_pct s = Band.flat)) ∧
    gradient_band (1 / 2) 16 (3 / 10) = Band.flat ∧
    gradient_band (1 / 2) 16 5 = Band.uphill ∧
    gradient_band (1 / 2) 16 20 = Band.extreme ∧
    gradient_band (1 / 2) 16 (-10) = Band.downhill ∧
    gradient_color (1 / 2) 16 20 = ⟨0, 0, 0, 255⟩ := by
  have habs : ∀ q : ℚ, 0 < q → abs q = q := fun q hq => abs_of_pos hq
  refine ⟨?_, ?_, ?_, ?_, ?_, ?_⟩
  · intro f e s hf he
    rw [gradient_band, habs f hf, habs e he]
    refine ⟨?_, ?_, ?_, ?_⟩
    · intro h
      rw [if_pos h]
    · intro h1 h2
      rw [if_neg (by intro hc; linarith), if_pos h1, if_pos h2]
    · intro h1 h2
      rw [if_neg (by intro hc; linarith), if_pos h1, if_neg (not_le.mpr h2)]
    · intro h
      rw [abs_le] at h
      rw [if_neg (by intro hc; linarith [h.1]), if_neg (not_lt.mpr h.2)]
  · rw [gradient_band, habs (1 / 2) (by norm_num), habs 16 (by norm_num),
      if_neg (by norm_num), if_neg (by norm_num)]
  · rw [gradient_band, habs (1 / 2) (by norm_num), habs 16 (by norm_num),
      if_neg (by norm_num), if_pos (by norm_num), if_neg (by norm_num)]
  · rw [gradient_band, habs (1 / 2) (by norm_num), habs 16 (by norm_num),
      if_neg (by norm_num), if_pos (by norm_num), if_pos (by norm_num)]
  · rw [gradient_band, habs (1 / 2) (by norm_num), habs 16 (by norm_num),
      if_pos (by norm_num)]
  · rw [gradient_color, habs (1 / 2) (by norm_num), habs 16 (by norm_num)]
    rw [if_neg (by norm_num), if_pos (by norm_num : (1 : ℚ) / 2 < 20),
      if_pos (by norm_num : (16 : ℚ) ≤ 20)]

/-- C9: for every adjacent pair of window points, a horizontal run below
0.1 m (including duplicate points at the same distance) gives slope
exactly 0, and classification of that slope is well defined (the flat
band for any positive flat threshold); otherwise the slope is rise over
run times 100, with the divisor provably nonzero. -/
theorem C9_slope_guard :
    ∀ p1 p2 : TrackPoint ℚ,
      (p2.distance - p1.distance < 1 / 10 → calculate_gradient_percent p1 p2 = 0) ∧
      (p1.distance = p2.distance → calculate_gradient_percent p1 p2 = 0) ∧
      (1 / 10 ≤ p2.distance - p1.distance →
        calculate_gradient_percent p1 p2 =
          (p2.altitude - p1.altitude) / (p2.distance - p1.distance) * 100 ∧
        p2.distance - p1.distance ≠ 0) ∧
      (∀ flat_pct extreme_pct : ℚ, 0 < flat_pct → p1.distance = p2.distance →
        gradient_band flat_pct extreme_pct (calculate_gradient_percent p1 p2) = Band.flat) := by
  intro p1 p2
  have hzero : p1.distance = p2.distance → calculate_gradient_percent p1 p2 = 0 := by
    intro h
    rw [calculate_gradient_percent]
    rw [if_pos (by rw [← h]; norm_num)]
  refine ⟨?_, hzero, ?_, ?_⟩
  · intro h
    rw [calculate_gradient_percent]
    rw [if_pos h]
  · intro h
    constructor
    · rw [calculate_gradient_percent]
      rw [if_neg (not_lt.mpr h)]
    · intro h0
      rw [h0] at h
      norm_num at h
  · intro flat_pct extreme_pct hf hd
    rw [hzero hd, gradient_band]
    have h1 : ¬((0 : ℚ) < -(abs flat_pct)) := by
      have := abs_nonneg flat_pct
      intro hc
      linarith
    have h2 : ¬(abs flat_pct < (0 : ℚ)) := not_lt.mpr (abs_nonneg flat_pct)
    rw [if_neg h1, if_neg h2]

/-- C3: `find_closest_point` returns `(none, -1)` exactly when the
sequence is empty; on a non-empty sequence sorted non-decreasing by
distance it returns `some point` with a valid index that is an exact
match when one exists, clamps to 0 below the first distance, clamps to
the last index beyond the last distance, and otherwise is the nearer of
the two bracketing neighbours, preferring the earlier index on an exact
tie; on distances [0, 100, 250, 400] the targets 125, 200, -50 and
10000 give indices 1, 2, 0 and 3. -/
theorem C3_find_closest_point :
    (∀ (td : List (TrackPoint ℚ)) (t : ℚ),
      (td.map TrackPoint.distance).Pairwise (· ≤ ·) →
      (td = [] → find_closest_point td t = (none, -1)) ∧
      (td ≠ [] → ∃ c : Nat, c < td.length ∧
        find_closest_point td t = (some (td.getD c default_tp), (c : Int)) ∧
        ((∃ m, m < td.length ∧ (td.map TrackPoint.distance).getD m 0 = t) →
          (td.getD c default_tp).distance = t) ∧
        (t < (td.map TrackPoint.distance).getD 0 0 → c = 0) ∧
        ((td.map TrackPoint.distance).getD (td.length - 1) 0 < t → c = td.length - 1) ∧
        (∀ k, 0 < k → k < td.length →
          (td.map TrackPoint.distance).getD (k - 1) 0 < t →
          t < (td.map TrackPoint.distance).getD k 0 →
          c = if t - (td.map TrackPoint.distance).getD (k - 1) 0 ≤
                (td.map TrackPoint.distance).getD k 0 - t
              then k - 1 else k))) ∧
    find_closest_point example_track 125 = (some ⟨100, ⟨0, 0⟩, 0, 0⟩, 1) ∧
    find_closest_point example_track 200 = (some ⟨250, ⟨0, 0⟩, 0, 0⟩, 2) ∧
    find_closest_point example_track (-50) = (some ⟨0, ⟨0, 0⟩, 0, 0⟩, 0) ∧
    find_closest_point example_track 10000 = (some ⟨400, ⟨0, 0⟩, 0, 0⟩, 3) ∧
    find_closest_point ([] : List (TrackPoint ℚ)) 0 = (none, -1) := by
  refine ⟨?_, ?_, ?_, ?_, ?_, rfl⟩
  · intro td t hs
    constructor
    · rintro rfl
      rfl
    · intro hne
      have hdne : td.map TrackPoint.distance ≠ [] := by
        simpa [List.map_eq_nil_iff] using hne
      have hclt : chosen_of (td.map TrackPoint.distance) t < td.length := by
        have := chosen_of_lt (t := t) hs hdne
        simpa [List.length_map] using this
      refine ⟨chosen_of (td.map TrackPoint.distance) t, hclt,
        find_closest_point_eq hne, ?_, ?_, ?_, ?_⟩
      · rintro ⟨m, hm, hdm⟩
        have hml : m < (td.map TrackPoint.distance).length := by
          simpa [List.length_map] using hm
        have := chosen_of_exact hs hml hdm
        rw [← getD_map_distance td hclt]
        exact this
      · intro ht
        exact chosen_of_below_first hs hdne ht
      · intro ht
        have := chosen_of_beyond_last hs hdne
          (by simpa [List.length_map] using ht)
        simpa [List.length_map] using this
      · intro k hk0 hk h1 h2
        exact chosen_of_bracket hs hk0 (by simpa [List.length_map] using hk) h1 h2
  · norm_num [find_closest_point, example_track, binary_search, bsAux, List.getD, default_tp]
  · norm_num [find_closest_point, example_track, binary_search, bsAux, List.getD, default_tp]
  · norm_num [find_closest_point, example_track, binary_search, bsAux, List.getD, default_tp]
  · norm_num [find_closest_point, example_track, binary_search, bsAux, List.getD, default_tp]

/-- C4: for every waypoint source with at least one point and either
distance method, the built TrackPoint sequence has non-decreasing
cumulative distance, and the first point is at distance 0. -/
theorem C4_track_monotone (method : DistanceMethod) (ws : List Waypoint) (hne : ws ≠ []) :
    List.Chain' (· ≤ ·) ((build_track_points method ws).map TrackPoint.distance) ∧
    (build_track_points method ws).head?.map TrackPoint.distance = some 0 := by
  constructor
  · exact build_track_points_monotone method ws
  · cases ws with
    | nil => exact absurd rfl hne
    | cons w rest => exact build_track_points_head method w rest

/-- Witness for C4 at the concrete one-waypoint source. -/
theorem C4_track_monotone_witness :
    List.Chain' (· ≤ ·)
      ((build_track_points DistanceMethod.Haversine [⟨0, 0, none⟩]).map TrackPoint.distance) ∧
    (build_track_points DistanceMethod.Haversine [⟨0, 0, none⟩]).head?.map
      TrackPoint.distance = some 0 :=
  C4_track_monotone DistanceMethod.Haversine [⟨0, 0, none⟩] (by simp)

/-- C5 counterexample: a GPX value whose only segment holds zero
waypoints makes `build_track_data` succeed with an empty sequence
rather than fail, so zero extractable waypoints do not imply the
"no track data" error. -/
theorem C5_empty_segment_succeeds :
    (∀ tr ∈ gpx_empty_first_segment.tracks, ∀ sg ∈ tr.segments, sg.points = []) ∧
    build_track_data DistanceMethod.Haversine gpx_empty_first_segment = Except.ok [] := by
  constructor
  · intro tr htr sg hsg
    simp only [gpx_empty_first_segment, List.mem_singleton] at htr
    subst htr
    simp only [List.mem_singleton] at hsg
    subst hsg
    rfl
  · rfl

/-- C5 amended: `build_track_data` fails with the "no track segment"
error exactly when the parsed file has no first track or its first
track has no first segment; a present-but-empty first segment instead
succeeds with an empty sequence. -/
theorem C5_no_segment_error (method : DistanceMethod) (g : Gpx) :
    (build_track_data method g =
        Except.error ("GPX file does not contain a track segment.") ↔
      g.tracks.head?.bind (fun track => track.segments.head?) = none) ∧
    (∀ seg, g.tracks.head?.bind (fun track => track.segments.head?) = some seg →
      build_track_data method g = Except.ok (build_track_points method seg.points)) := by
  constructor
  · exact build_track_data_error_iff method g
  · intro seg hseg
    rw [build_track_data, hseg]

/-- Witness for C5 at the concrete trackless GPX value. -/
theorem C5_no_segment_error_witness :
    build_track_data DistanceMethod.Haversine gpx_no_tracks =
      Except.error ("GPX file does not contain a track segment.") :=
  (C5_no_segment_error DistanceMethod.Haversine gpx_no_tracks).1.mpr rfl

/-- C10: for every successfully located first segment of the first
track, the builder emits exactly one TrackPoint per waypoint of that
segment, in order (same length, positions preserved pointwise), and
the output depends only on that segment: any other GPX value with the
same first segment builds the same result. -/
theorem C10_one_point_per_waypoint (method : DistanceMethod) (g : Gpx) (seg : GpxSegment)
    (hseg : g.tracks.head?.bind (fun track => track.segments.head?) = some seg) :
    build_track_data method g = Except.ok (build_track_points method seg.points) ∧
    (build_track_points method seg.points).length = seg.points.length ∧
    (build_track_points method seg.points).map TrackPoint.point =
      seg.points.map (fun w => (⟨w.lat, w.lon⟩ : Point ℝ)) ∧
    ∀ g' : Gpx, g'.tracks.head?.bind (fun track => track.segments.head?) = some seg →
      build_track_data method g' = build_track_data method g := by
  refine ⟨?_, ?_, ?_, ?_⟩
  · rw [build_track_data, hseg]
  · exact build_track_loop_length method seg.points 0 none
  · exact build_track_loop_map_point method seg.points 0 none
  · intro g' hseg'
    rw [build_track_data, hseg', build_track_data, hseg]

/-- Witness for C10 at the concrete one-waypoint GPX value. -/
theorem C10_one_point_per_waypoint_witness :
    build_track_data DistanceMethod.Haversine gpx_one_waypoint =
      Except.ok (build_track_points DistanceMethod.Haversine [⟨0, 0, none⟩]) ∧
    (build_track_points DistanceMethod.Haversine [⟨0, 0, none⟩]).length =
      ([⟨0, 0, none⟩] : List Waypoint).length ∧
    (build_track_points DistanceMethod.Haversine [⟨0, 0, none⟩]).map TrackPoint.point =
      ([⟨0, 0, none⟩] : List Waypoint).map (fun w => (⟨w.lat, w.lon⟩ : Point ℝ)) ∧
    ∀ g' : Gpx, g'.tracks.head?.bind (fun track => track.segments.head?) =
        some (⟨[⟨0, 0, none⟩]⟩ : GpxSegment) →
      build_track_data DistanceMethod.Haversine g' =
        build_track_data DistanceMethod.Haversine gpx_one_waypoint :=
  C10_one_point_per_waypoint DistanceMethod.Haversine gpx_one_waypoint ⟨[⟨0, 0, none⟩]⟩ rfl

/-- C6 counterexample: on the well-formed two-point track with
distances [0, 100] and the window [40, 60], the indexed-slice path of
`select_gradient_points` keeps both points (neither of which lies in
the window) while the linear scan selects nothing, so the two paths are
not equivalent and lead to different gradient outcomes (two points
versus the fewer-than-two "insufficient points" failure). -/
theorem C6_paths_differ :
    select_gradient_points two_point_track 40 60 = two_point_track ∧
    linear_scan_points two_point_track 40 60 = [] ∧
    select_gradient_points two_point_track 40 60 ≠
      linear_scan_points two_point_track 40 60 ∧
    (select_gradient_points two_point_track 40 60).length = 2 ∧
    (linear_scan_points two_point_track 40 60).length < 2 := by
  have hsel : select_gradient_points two_point_track 40 60 = two_point_track := by
    norm_num [select_gradient_points, find_closest_point, two_point_track, binary_search,
      bsAux, List.getD, default_tp]
  have hlin : linear_scan_points two_point_track 40 60 = [] := by
    norm_num [linear_scan_points, two_point_track, List.filter]
  refine ⟨hsel, hlin, ?_, ?_, ?_⟩
  · rw [hsel, hlin]
    simp [two_point_track]
  · rw [hsel]
    rfl
  · rw [hlin]
    norm_num

/-- C6 amended: the two point-selection paths are not equivalent in
general (see the counterexample), but for every track with strictly
increasing distances the selection actually computed (indexed slice
with linear fallback) contains every point the linear scan selects,
i.e. every track point whose distance lies in the window. -/
theorem C6_selection_contains_window (track : List (TrackPoint ℚ))
    (gradient_start gradient_end : ℚ)
    (hs : (track.map TrackPoint.distance).Pairwise (· < ·)) :
    ∀ p ∈ track, gradient_start ≤ p.distance → p.distance ≤ gradient_end →
      p ∈ select_gradient_points track gradient_start gradient_end :=
  select_gradient_points_superset track gradient_start gradient_end hs

/-- Witness for C6 at the concrete two-point track with the window
[0, 100]. -/
theorem C6_selection_contains_window_witness :
    (⟨0, ⟨0, 0⟩, 0, 0⟩ : TrackPoint ℚ) ∈ select_gradient_points two_point_track 0 100 :=
  C6_selection_contains_window two_point_track 0 100
    (by norm_num [two_point_track, List.pairwise_cons])
    ⟨0, ⟨0, 0⟩, 0, 0⟩ (by norm_num [two_point_track]) (by norm_num) (by norm_num)

/-- C7: both distance formulas return a non-negative value for every
pair of points, and return exactly 0 (in particular within 1e-6 m) for
identical points. -/
theorem C7_distance_nonneg_and_zero :
    (∀ p1 p2 : Point ℝ, 0 ≤ haversine_distance p1 p2 ∧ 0 ≤ ECEF_distance p1 p2) ∧
    (∀ p : Point ℝ, haversine_distance p p = 0 ∧ ECEF_distance p p = 0 ∧
      abs (haversine_distance p p) ≤ 1 / 1000000 ∧
      abs (ECEF_distance p p) ≤ 1 / 1000000) := by
  refine ⟨fun p1 p2 => ⟨haversine_distance_nonneg p1 p2, ECEF_distance_nonneg p1 p2⟩,
    fun p => ⟨haversine_distance_self p, ECEF_distance_self p, ?_, ?_⟩⟩
  · rw [haversine_distance_self]
    norm_num
  · rw [ECEF_distance_self]
    norm_num

/-- C8: the computed bearing lies in [0, 360) for every pair of points,
and the degenerate bearing from a point to itself is 0. -/
theorem C8_bearing_range :
    (∀ from_latitude from_longitude to_latitude to_longitude : ℝ,
      0 ≤ calculate_bearing from_latitude from_longitude to_latitude to_longitude ∧
      calculate_bearing from_latitude from_longitude to_latitude to_longitude < 360) ∧
    (∀ lat lon : ℝ, calculate_bearing lat lon lat lon = 0) :=
  ⟨calculate_bearing_range, calculate_bearing_self⟩
